import Mathlib

/-!
Verification development for the node-disks storage abstraction.

The definitions below are a shallow embedding of the repository code:

* `NodeDisks.normStack` and `NodeDisks.getFullPath` embed the virtual path
  resolution of `FSDisk.getFullPath` / `LocalDisk.getFullPath`
  (posix resolution of the virtual path against the synthetic root "/",
  then OS resolution of the result, re-rooted with a leading ".", against
  the real root path).  Paths are modelled as lists of segments; a real
  absolute path is the list of its separator-delimited segments.
* The disk manager (`resolveDiskSpecification`, `getDisk`) is embedded
  with explicit state passing; object identity of disk instances is
  modelled by a fresh numeric id allocated at construction.
* Filesystem primitives (`readFileE`, `writeFileE`, `mkdirpGo`, `statE`,
  `readdirE`) model the async fs capability module the disks delegate to
  (node fs / memfs), with the semantics the specification assigns to
  these external collaborators (truncating overwrite, mkdir-parents,
  stat following symbolic links).
* The listing pipeline (`mergeListings`, `fsClassify`, `localClassify`,
  `fsList`) embeds `FSDisk.list` and the per-entry classification of
  `LocalDisk.list`; the object store listing (`listSome`,
  `rawListAllObjects`, `dedupJS`, `s3list`) embeds
  `S3Disk.listSomeObjects`, `S3Disk.rawListAllObjects` and `S3Disk.list`.
-/

namespace NodeDisks

/-! ## Generic association list machinery (JS object maps) -/

/-- Lookup in an association list; models JS object property access. -/
def lookupA {κ ν : Type} [DecidableEq κ] : List (κ × ν) → κ → Option ν
  | [], _ => none
  | (k, v) :: rest, q => if k = q then some v else lookupA rest q

/-- Set a key in an association list; models JS object property assignment
(replaces the binding in place, preserving insertion order, otherwise
appends a new binding at the end). -/
def setA {κ ν : Type} [DecidableEq κ] : List (κ × ν) → κ → ν → List (κ × ν)
  | [], k, v => [(k, v)]
  | (k0, v0) :: rest, k, v =>
    if k0 = k then (k, v) :: rest else (k0, v0) :: setA rest k v

/-! ## Virtual path resolution (FSDisk.getFullPath / LocalDisk.getFullPath)

A path string is split on the separator into segments; `normStack`
performs the normalization that `path.posix.resolve` and (on a posix
host) `path.resolve` apply to a joined absolute path: empty and `.`
segments are dropped, and a `..` segment removes the previous segment,
clamped at the root. -/

/-- Normalization of an absolute path given as raw segments, processed
left to right over an accumulator of already-normalized segments.  This is
the segment-level semantics of node path normalization for absolute
paths: `.` and empty segments are skipped and `..` pops, clamped at the
root. -/
def normStack (acc : List String) : List String → List String
  | [] => acc
  | s :: rest =>
    if s = "" ∨ s = "." then normStack acc rest
    else if s = ".." then normStack acc.dropLast rest
    else normStack (acc ++ [s]) rest

/-- Split a character list at every occurrence of the separator; the
semantics of splitting a path string on the separator character. -/
def splitOnChar (c : Char) : List Char → List (List Char)
  | [] => [[]]
  | x :: xs =>
    let r := splitOnChar c xs
    if x = c then [] :: r
    else
      match r with
      | [] => [[x]]
      | y :: ys => (x :: y) :: ys

/-- The separator-delimited segments of a path string. -/
def splitSegs (s : String) : List String :=
  (splitOnChar '/' s.data).map String.mk

/-- A segment is clean when normalization treats it as an ordinary name. -/
def cleanSeg (s : String) : Prop := s ≠ "" ∧ s ≠ "." ∧ s ≠ ".."

instance (s : String) : Decidable (cleanSeg s) := by
  unfold cleanSeg
  infer_instance

/-- Embedding of `getFullPath` from `FSDisk` / `LocalDisk`: for a provided
virtual path the code computes `path.posix.resolve(SEP, pathOnDisk)` and
then resolves that result, re-rooted with a leading `.` segment, against
the root path; for a null or empty (falsy) virtual path it returns the
root path itself.  At segment level the first resolve is
`normStack [] (split pathOnDisk)` and the second is normalization of the
root segments followed by `.` followed by the segments of the
already-normalized virtual path. -/
def getFullPath (root : List String) (pathOnDisk : Option String) :
    List String :=
  match pathOnDisk with
  | none => root
  | some s =>
    if s = "" then root
    else normStack [] (root ++ "." :: normStack [] (splitSegs s))

/-! ## Listing data model (DiskObjectType / DiskListingObject) -/

/-- Embedding of the `DiskObjectType` enum. -/
inductive DiskObjectType : Type
  | file
  | directory
deriving DecidableEq, Repr

/-- Embedding of `DiskListingObject`: a name plus an object type.  The
name is the base name of the entry; the `Disk` standard appends the
separator to directory names. -/
structure DiskListingObject : Type where
  name : String
  type : DiskObjectType
deriving DecidableEq, Repr

/-- Embedding of the final reduce of `FSDisk.list` / `LocalDisk.list`:
the raw per-entry results (null for skipped entries) are separated into
directories and files by pushing onto two accumulator arrays in entry
order, and the result is directories followed by files. -/
def mergeListings (raw : List (Option DiskListingObject)) :
    List DiskListingObject :=
  let acc := raw.foldl
    (fun (acc : List DiskListingObject × List DiskListingObject) o =>
      match o with
      | none => acc
      | some l =>
        if l.type = DiskObjectType.directory then (acc.1 ++ [l], acc.2)
        else if l.type = DiskObjectType.file then (acc.1, acc.2 ++ [l])
        else acc)
    ([], [])
  acc.1 ++ acc.2

/-! ## Filesystem capability model

Modelled from the spec: the async byte-stream-capable primitive set each
filesystem-like backend consumes (node `fs` / `memfs` behind
`AsyncFSModule`) is an external collaborator of the repository; it is
modelled here as a finite map from full segment paths to nodes, with the
semantics the specification assigns to it: `writeFile` overwrites in
full (truncating), `mkdirp` creates missing intermediate directories and
fails when a component exists as a non-directory, `stat` follows
symbolic links, `readdir` enumerates the immediate children of a directory in
store order. -/

/-- Error codes reported by the fs capability module. -/
inductive FsErr : Type
  | ENOENT
  | EISDIR
  | ENOTDIR
  | EEXIST
  | EPERM
  | EACCES
  | other (code : String)
deriving DecidableEq, Repr

/-- A filesystem node: a regular file with byte content, a directory, or
a symbolic link to a target path. -/
inductive Node : Type
  | file (data : List Nat)
  | dir
  | symlink (target : List String)
deriving DecidableEq, Repr

/-- The filesystem store: bindings from full segment paths to nodes.  The
root `[]` is always an implicit directory. -/
def FsState : Type := List (List String × Node)

instance : DecidableEq FsState := by
  unfold FsState
  infer_instance

/-- Resolve a path to its node, following one level of symbolic link the
way `stat` does.  The root is an implicit directory. -/
def statNode (fs : FsState) (p : List String) : Option Node :=
  if p = [] then some Node.dir
  else
    match lookupA fs p with
    | some (Node.symlink t) => if t = [] then some Node.dir else lookupA fs t
    | x => x

/-- The outcome of a successful `stat`: `Stats.isFile` or
`Stats.isDirectory`. -/
inductive StatKind : Type
  | file
  | directory
deriving DecidableEq, Repr

/-- The `stat` primitive: resolves symbolic links; a dangling link or a
missing entry reports ENOENT. -/
def statE (fs : FsState) (p : List String) : Except FsErr StatKind :=
  match statNode fs p with
  | some (Node.file _) => Except.ok StatKind.file
  | some Node.dir => Except.ok StatKind.directory
  | some (Node.symlink _) => Except.error FsErr.ENOENT
  | none => Except.error FsErr.ENOENT

/-- Immediate child names of a directory path, in store order. -/
def childNames (fs : FsState) (p : List String) : List String :=
  fs.filterMap (fun e =>
    if e.1.take p.length = p then
      match e.1.drop p.length with
      | [n] => some n
      | _ => none
    else none)

/-- The `readdir` primitive. -/
def readdirE (fs : FsState) (p : List String) : Except FsErr (List String) :=
  match statNode fs p with
  | some Node.dir => Except.ok (childNames fs p)
  | some _ => Except.error FsErr.ENOTDIR
  | none => Except.error FsErr.ENOENT

/-- The `readFile` primitive. -/
def readFileE (fs : FsState) (p : List String) : Except FsErr (List Nat) :=
  match statNode fs p with
  | some (Node.file b) => Except.ok b
  | some Node.dir => Except.error FsErr.EISDIR
  | _ => Except.error FsErr.ENOENT

/-- Worker for the `mkdirp` primitive: walks the segments of the target
directory, creating each missing intermediate directory and failing with
EEXIST when a component already exists as a non-directory. -/
def mkdirpGo (fs : FsState) (done : List String) :
    List String → Except FsErr FsState
  | [] => Except.ok fs
  | s :: rest =>
    match lookupA fs (done ++ [s]) with
    | some Node.dir => mkdirpGo fs (done ++ [s]) rest
    | some _ => Except.error FsErr.EEXIST
    | none => mkdirpGo (setA fs (done ++ [s]) Node.dir) (done ++ [s]) rest

/-- The `mkdirp` primitive (mkdir-parents). -/
def mkdirpE (fs : FsState) (d : List String) : Except FsErr FsState :=
  mkdirpGo fs [] d

/-- The `writeFile` primitive: overwrites in full (truncating semantics:
the binding is replaced wholly, never appended to); writing a directory
reports EISDIR, a missing parent directory reports ENOENT. -/
def writeFileE (fs : FsState) (p : List String) (data : List Nat) :
    Except FsErr FsState :=
  if p = [] then Except.error FsErr.EISDIR
  else
    match statNode fs p with
    | some Node.dir => Except.error FsErr.EISDIR
    | _ =>
      if p.dropLast = [] ∨ lookupA fs p.dropLast = some Node.dir then
        Except.ok (setA fs p (Node.file data))
      else Except.error FsErr.ENOENT

/-! ## The error taxonomy -/

/-- The translated error taxonomy plus a constructor for untranslated
backend errors that propagate unchanged. -/
inductive DiskError : Type
  | notFound (path : Option String)
  | notAFile (path : Option String)
  | notADirectory (path : Option String)
  | notWritableDestination (path : Option String)
  | badDriver (diskName : String) (driver : Option String)
  | diskNotFound (name : String)
  | raw (e : FsErr)
deriving DecidableEq, Repr

/-! ## FSDisk operations -/

/-- Embedding of the catch block of `FSDisk.read`: EISDIR becomes
NotAFileError, ENOENT becomes NotFoundError, anything else is rethrown
unchanged. -/
def fsReadTranslate (p : String) (r : Except FsErr (List Nat)) :
    Except DiskError (List Nat) :=
  match r with
  | Except.ok b => Except.ok b
  | Except.error FsErr.EISDIR => Except.error (DiskError.notAFile (some p))
  | Except.error FsErr.ENOENT => Except.error (DiskError.notFound (some p))
  | Except.error e => Except.error (DiskError.raw e)

/-- Embedding of `FSDisk.read`. -/
def fsRead (fs : FsState) (root : List String) (p : String) :
    Except DiskError (List Nat) :=
  fsReadTranslate p (readFileE fs (getFullPath root (some p)))

/-- Embedding of `FSDisk.write` for a buffer body, through
`prepareAndExecuteWrite`: mkdirp of the dirname of the full path (EEXIST
and ENOTDIR become NotWritableDestinationError), then the write itself
(EISDIR and EACCES become NotWritableDestinationError); other errors
propagate unchanged. -/
def fsWrite (fs : FsState) (root : List String) (p : String)
    (data : List Nat) : Except DiskError FsState :=
  let full := getFullPath root (some p)
  match mkdirpE fs full.dropLast with
  | Except.error FsErr.EEXIST =>
    Except.error (DiskError.notWritableDestination (some p))
  | Except.error FsErr.ENOTDIR =>
    Except.error (DiskError.notWritableDestination (some p))
  | Except.error e => Except.error (DiskError.raw e)
  | Except.ok fs1 =>
    match writeFileE fs1 full data with
    | Except.error FsErr.EISDIR =>
      Except.error (DiskError.notWritableDestination (some p))
    | Except.error FsErr.EACCES =>
      Except.error (DiskError.notWritableDestination (some p))
    | Except.error e => Except.error (DiskError.raw e)
    | Except.ok fs2 => Except.ok fs2

/-- Embedding of the per-entry classification inside the Promise.all of
`FSDisk.list`: a stat that reports a directory yields a Directory entry
with the separator appended, a file yields a File entry.  (Stats that are
neither, which the code maps to null, do not arise in this node model.) -/
def fsClassify (n : String) (k : StatKind) : Option DiskListingObject :=
  match k with
  | StatKind.directory =>
    some { name := n ++ "/", type := DiskObjectType.directory }
  | StatKind.file => some { name := n, type := DiskObjectType.file }

/-- Embedding of the stat fan-out of `FSDisk.list`: every name returned
by readdir is statted; the code wraps only the synchronous creation of
each stat promise in try/catch, and `stat` (a promise-returning function)
never throws synchronously, so every rejection instead surfaces at the
unguarded await inside Promise.all and rejects the whole listing with the
raw error - including ENOENT for a dangling symbolic link. -/
def statAll (fs : FsState) (full : List String) (names : List String) :
    Except FsErr (List (String × StatKind)) :=
  names.mapM (fun n => (statE fs (full ++ [n])).map (fun k => (n, k)))

/-- Embedding of `FSDisk.list` (the current, AsyncFSModule-based FSDisk):
readdir with ENOTDIR/ENOENT translation, then the stat fan-out (whose
failures propagate raw, see `statAll`), then classification and the
directories-first merge. -/
def fsList (fs : FsState) (root : List String) (p : Option String) :
    Except DiskError (List DiskListingObject) :=
  let full := getFullPath root p
  match readdirE fs full with
  | Except.error FsErr.ENOTDIR => Except.error (DiskError.notADirectory p)
  | Except.error FsErr.ENOENT => Except.error (DiskError.notFound p)
  | Except.error e => Except.error (DiskError.raw e)
  | Except.ok names =>
    match statAll fs full names with
    | Except.error e => Except.error (DiskError.raw e)
    | Except.ok pairs =>
      Except.ok (mergeListings (pairs.map (fun q => fsClassify q.1 q.2)))

/-! ## LocalDisk per-entry classification -/

/-- The kind of a raw directory entry (`fs.Dirent`). -/
inductive DirentKind : Type
  | file
  | directory
  | symlink
  | other
deriving DecidableEq, Repr

/-- Embedding of the per-entry mapper of `LocalDisk.list` (and of the
older, promisify-based FSDisk): a symbolic link is classified by one stat
of its target (ENOENT drops the entry, any other stat error is
rethrown), a directory entry gets the separator appended - and the
`entity.isFile()` branch returns the entry with type Directory, exactly
as the source does.  `statTarget` is the outcome of the stat issued for a
symbolic link target. -/
def localClassify (statTarget : Except FsErr StatKind) (kind : DirentKind)
    (n : String) : Except FsErr (Option DiskListingObject) :=
  match kind with
  | DirentKind.symlink =>
    match statTarget with
    | Except.ok StatKind.file =>
      Except.ok (some { name := n, type := DiskObjectType.file })
    | Except.ok StatKind.directory =>
      Except.ok (some { name := n ++ "/", type := DiskObjectType.directory })
    | Except.error FsErr.ENOENT => Except.ok none
    | Except.error e => Except.error e
  | DirentKind.directory =>
    Except.ok (some { name := n ++ "/", type := DiskObjectType.directory })
  | DirentKind.file =>
    Except.ok (some { name := n, type := DiskObjectType.directory })
  | DirentKind.other => Except.ok none

/-! ## Disk manager -/

/-- A driver/config specification from the manager configuration.  The
config payload is opaque to the manager logic and kept as a string. -/
structure DiskSpec : Type where
  driver : Option String
  config : String
deriving DecidableEq, Repr

/-- A manager configuration entry: a string alias to another disk name,
or a concrete specification. -/
inductive ConfigEntry : Type
  | alias (target : String)
  | spec (s : DiskSpec)
deriving DecidableEq, Repr

/-- The manager configuration: a JS object mapping disk names to entries. -/
def DiskManagerConfig : Type := List (String × ConfigEntry)

/-- Embedding of `DiskManager.resolveDiskSpecification`: follows string
aliases while the name is present in the config and the hop budget
(default 10) is positive, decrementing the budget on each recursive
step; returns the resolved name paired with its concrete specification,
or null. -/
def resolveDiskSpecification (cfg : DiskManagerConfig) :
    String → Nat → Option (String × DiskSpec)
  | _, 0 => none
  | name, m + 1 =>
    match lookupA cfg name with
    | none => none
    | some (ConfigEntry.alias t) => resolveDiskSpecification cfg t m
    | some (ConfigEntry.spec s) => some (name, s)

/-- A constructed disk instance.  Object identity is modelled by the
numeric `id` allocated from the counter of the manager at construction; the
resolved name is passed into the instance (Disk.getName returns it). -/
structure DiskInstance : Type where
  id : Nat
  name : Option String
  driver : String
  config : String
deriving DecidableEq, Repr

/-- The mutable state of the manager: the registry of constructed disks keyed
by resolved name, plus the id counter modelling allocation of fresh
object identities. -/
structure ManagerState : Type where
  disks : List (String × DiskInstance)
  nextId : Nat
deriving DecidableEq, Repr

/-- Embedding of `DiskManager.getDisk`: resolve the specification (hop
budget 10); if resolution fails throw DiskNotFoundError; if the registry
already holds an instance under the resolved name return it unchanged;
otherwise construct an instance for the recognized driver tags (passing
the resolved name in), register it under the resolved name and return
it; unrecognized drivers throw BadDriverError. -/
def getDisk (cfg : DiskManagerConfig) (st : ManagerState)
    (name : String := "default") :
    Except DiskError (DiskInstance × ManagerState) :=
  match resolveDiskSpecification cfg name 10 with
  | none => Except.error (DiskError.diskNotFound name)
  | some (resolvedName, sp) =>
    match lookupA st.disks resolvedName with
    | some d => Except.ok (d, st)
    | none =>
      if sp.driver = some "local" then
        let d : DiskInstance :=
          { id := st.nextId, name := some resolvedName, driver := "local",
            config := sp.config }
        Except.ok (d, { disks := setA st.disks resolvedName d,
                        nextId := st.nextId + 1 })
      else if sp.driver = some "memory" then
        let d : DiskInstance :=
          { id := st.nextId, name := some resolvedName, driver := "memory",
            config := sp.config }
        Except.ok (d, { disks := setA st.disks resolvedName d,
                        nextId := st.nextId + 1 })
      else if sp.driver = some "s3" then
        let d : DiskInstance :=
          { id := st.nextId, name := some resolvedName, driver := "s3",
            config := sp.config }
        Except.ok (d, { disks := setA st.disks resolvedName d,
                        nextId := st.nextId + 1 })
      else Except.error (DiskError.badDriver resolvedName sp.driver)

/-- The registry invariant: every registered disk carries the resolved
name it is registered under.  It holds for a fresh manager (empty
registry) and is preserved by getDisk. -/
def wellNamed (st : ManagerState) : Prop :=
  ∀ e ∈ st.disks, e.2.name = some e.1

/-! ## S3 disk -/

/-- Match a literal pattern at the front of a list, returning the
remainder on success. -/
def dropPre {α : Type} [DecidableEq α] : List α → List α → Option (List α)
  | [], s => some s
  | _ :: _, [] => none
  | c :: cs, x :: xs => if c = x then dropPre cs xs else none

/-- Characters that carry meaning inside a regular expression pattern. -/
def regexMeta : List Char :=
  ['\\', '^', '$', '.', '|', '?', '*', '+', '(', ')', '[', ']',
   '\x7b', '\x7d']

/-- A query prefix is regex-safe when the anchored pattern that the
trimPrefix helper builds from it matches the prefix literally: it
contains no regex metacharacter.  For a prefix that is not regex-safe
the source pattern does not denote the literal prefix, so the theorems
below that assert trimming behavior carry this as a hypothesis. -/
def regexSafe (pre : String) : Bool :=
  pre.data.all (fun c => !(regexMeta.contains c))

/-- Embedding of the `trimPrefix` helper inside `S3Disk.listSomeObjects`:
the source replaces the match of a regular expression, built from the
query prefix and anchored at the start, with the empty string.  For a
regex-safe prefix (see `regexSafe`) that pattern matches exactly the
literal prefix, which is what this definition removes; the theorems that
rely on trimming assume `regexSafe`. -/
def prefixTrim (pre s : String) : String :=
  match dropPre pre.data s.data with
  | some rest => String.mk rest
  | none => s

/-- One page of the bucket listing as delivered by the backend
listObjectsV2 call: raw object keys and raw common prefixes.  The chain
of continuation tokens is modelled by the list of pages handed to
`rawListAllObjects`. -/
structure S3Page : Type where
  contents : List String
  commonPrefixes : List String
deriving DecidableEq, Repr

/-- Embedding of `S3Disk.listSomeObjects` on one delivered page: keys and
common prefixes have the query prefix trimmed off and empty names (the
prefix marker object itself) are filtered out. -/
def listSome (pre : String) (page : S3Page) : List String × List String :=
  ((page.contents.map (prefixTrim pre)).filter (fun n => n ≠ ""),
   (page.commonPrefixes.map (prefixTrim pre)).filter (fun n => n ≠ ""))

/-- Embedding of `S3Disk.rawListAllObjects`: pages are consumed
sequentially following continuation tokens, and the files and directories
of each page are appended in order. -/
def rawListAllObjects (pre : String) : List S3Page → List String × List String
  | [] => ([], [])
  | page :: rest =>
    let fd := listSome pre page
    let rec2 := rawListAllObjects pre rest
    (fd.1 ++ rec2.1, fd.2 ++ rec2.2)

/-- JS `new Set` deduplication: keeps the first occurrence of each
element, in insertion order. -/
def dedupJS (seen : List String) : List String → List String
  | [] => []
  | x :: xs => if x ∈ seen then dedupJS seen xs else x :: dedupJS (x :: seen) xs

/-- Embedding of `S3Disk.list` given the pages the backend delivers for
the query prefix: gather all pages, deduplicate both groups, and return
directories (as Directory objects) before files (as File objects).  The
operation has no NotFound/NotADirectory failure path: an empty page
sequence yields an empty listing. -/
def s3list (pre : String) (pages : List S3Page) : List DiskListingObject :=
  let raw := rawListAllObjects pre pages
  let directories := dedupJS [] raw.2
  let files := dedupJS [] raw.1
  directories.map (fun n => { name := n, type := DiskObjectType.directory })
    ++ files.map (fun n => { name := n, type := DiskObjectType.file })

/-- Embedding of `S3Disk.read` as a function of the backend getObject
outcome for the computed key: the catch block translates NoSuchKey to
NotFoundError but contains no rethrow for any other error code, leaving
the body null; a key ending in the separator is a directory marker and
yields NotAFileError; otherwise a null body falls through to an empty
buffer. -/
def s3Read (path key : String) (r : Except String (List Nat)) :
    Except DiskError (List Nat) :=
  match r with
  | Except.error c =>
    if c = "NoSuchKey" then Except.error (DiskError.notFound (some path))
    else if key.data.getLast? = some '/' then
      Except.error (DiskError.notAFile (some path))
    else Except.ok []
  | Except.ok b =>
    if key.data.getLast? = some '/' then
      Except.error (DiskError.notAFile (some path))
    else Except.ok b

/-! ## Memory disks -/

/-- The empty volume a fresh memfs Volume starts with. -/
def emptyFs : FsState := []

/-- World of memory disk instances: the volume owned by each constructed
MemoryDisk, indexed by instance.  `MemoryDisk.getAsyncFsModule` wraps a
Volume created fresh at construction, so constructing a disk appends a
new empty store. -/
def newMemoryDisk (w : List FsState) : List FsState × Nat :=
  (w ++ [emptyFs], w.length)

/-- Run a state-transforming disk operation (any composition of
write/delete primitives) against the volume owned by instance `i`. -/
def memApply (w : List FsState) (i : Nat) (op : FsState → FsState) :
    List FsState :=
  w.set i (op (w.getD i emptyFs))

/-! ## Concrete example states used by the evaluation theorems -/

/-- A store holding one regular file and one dangling symbolic link. -/
def fsBroken : FsState :=
  [(["a.txt"], Node.file [104]), (["lnk"], Node.symlink ["gone"])]

/-- A configuration whose entries alias each other in a cycle. -/
def cycleCfg : DiskManagerConfig :=
  [("a", ConfigEntry.alias "b"), ("b", ConfigEntry.alias "a")]

/-- The spec scenario configuration: default aliases foo, foo is a
memory disk, bar aliases foo. -/
def scenarioCfg : DiskManagerConfig :=
  [("default", ConfigEntry.alias "foo"),
   ("foo", ConfigEntry.spec { driver := some "memory", config := "c" }),
   ("bar", ConfigEntry.alias "foo")]

/-! ## Association list lemmas -/

theorem lookupA_mem {κ ν : Type} [DecidableEq κ] {l : List (κ × ν)} {k : κ}
    {v : ν} (h : lookupA l k = some v) : (k, v) ∈ l := by
  induction l with
  | nil => simp [lookupA] at h
  | cons e rest ih =>
    obtain ⟨k0, v0⟩ := e
    by_cases hk : k0 = k
    · subst hk
      simp [lookupA] at h
      subst h
      exact List.mem_cons_self _ _
    · simp [lookupA, hk] at h
      exact List.mem_cons_of_mem _ (ih h)

theorem lookupA_setA_self {κ ν : Type} [DecidableEq κ] (l : List (κ × ν))
    (k : κ) (v : ν) : lookupA (setA l k v) k = some v := by
  induction l with
  | nil => simp [setA, lookupA]
  | cons e rest ih =>
    obtain ⟨k0, v0⟩ := e
    by_cases hk : k0 = k
    · simp [setA, hk, lookupA]
    · simp [setA, hk, lookupA, ih]

theorem lookupA_setA_ne {κ ν : Type} [DecidableEq κ] (l : List (κ × ν))
    (k q : κ) (v : ν) (hne : q ≠ k) : lookupA (setA l k v) q = lookupA l q := by
  induction l with
  | nil =>
    simp only [setA, lookupA]
    rw [if_neg (fun h => hne h.symm)]
  | cons e rest ih =>
    obtain ⟨k0, v0⟩ := e
    simp only [setA]
    by_cases hk : k0 = k
    · rw [if_pos hk]
      simp only [lookupA]
      rw [if_neg (fun h => hne h.symm),
        if_neg (fun h => hne (hk.symm.trans h).symm)]
    · rw [if_neg hk]
      simp only [lookupA]
      by_cases hq : k0 = q
      · rw [if_pos hq, if_pos hq]
      · rw [if_neg hq, if_neg hq]
        exact ih

/-! ## Path normalization lemmas -/

theorem normStack_append (acc : List String) (l1 l2 : List String) :
    normStack acc (l1 ++ l2) = normStack (normStack acc l1) l2 := by
  induction l1 generalizing acc with
  | nil => simp [normStack]
  | cons s rest ih =>
    by_cases h1 : s = "" ∨ s = "."
    · simp only [List.cons_append, normStack, if_pos h1]
      exact ih acc
    · by_cases h2 : s = ".."
      · simp only [List.cons_append, normStack, if_neg h1, if_pos h2]
        exact ih acc.dropLast
      · simp only [List.cons_append, normStack, if_neg h1, if_neg h2]
        exact ih (acc ++ [s])

theorem normStack_clean (acc : List String) (l : List String)
    (h : ∀ s ∈ l, cleanSeg s) : normStack acc l = acc ++ l := by
  induction l generalizing acc with
  | nil => simp [normStack]
  | cons s rest ih =>
    obtain ⟨h1, h2, h3⟩ := h s (List.mem_cons_self _ _)
    simp only [normStack,
      if_neg (show ¬(s = "" ∨ s = ".") from fun hc => hc.elim h1 h2),
      if_neg h3]
    rw [ih (acc ++ [s]) (fun x hx => h x (List.mem_cons_of_mem _ hx))]
    simp

theorem normStack_output_clean (l : List String) (acc : List String)
    (hacc : ∀ s ∈ acc, cleanSeg s) :
    ∀ s ∈ normStack acc l, cleanSeg s := by
  induction l generalizing acc with
  | nil => simpa [normStack] using hacc
  | cons s rest ih =>
    by_cases h1 : s = "" ∨ s = "."
    · simp only [normStack, if_pos h1]
      exact ih acc hacc
    · by_cases h2 : s = ".."
      · simp only [normStack, if_neg h1, if_pos h2]
        exact ih acc.dropLast
          (fun x hx => hacc x (List.dropLast_subset _ hx))
      · simp only [normStack, if_neg h1, if_neg h2]
        refine ih (acc ++ [s]) ?_
        intro x hx
        rcases List.mem_append.mp hx with hx | hx
        · exact hacc x hx
        · rcases List.mem_singleton.mp hx with rfl
          push_neg at h1
          exact ⟨h1.1, h1.2, h2⟩

/-! ## C1: path containment -/

/-- C1: for every configured root (a normalized absolute path, as
produced by path.resolve in getRootPath) and every virtual path argument,
including paths with arbitrarily many `..` segments, leading separators,
`.` segments or empty segments, the full real path computed by
getFullPath extends the root by some (possibly empty) list of clean
segments: it is a descendant of, or equal to, the root, never an
ancestor or sibling. -/
theorem getFullPath_contained_in_root (root : List String)
    (p : Option String) (hroot : ∀ s ∈ root, cleanSeg s) :
    ∃ t, getFullPath root p = root ++ t := by
  cases p with
  | none => exact ⟨[], by simp [getFullPath]⟩
  | some s =>
    by_cases hs : s = ""
    · exact ⟨[], by simp [getFullPath, hs]⟩
    · refine ⟨normStack [] (splitSegs s), ?_⟩
      have habs : ∀ x ∈ normStack [] (splitSegs s), cleanSeg x :=
        normStack_output_clean _ _ (by simp)
      show getFullPath root (some s) = _
      simp only [getFullPath]
      rw [if_neg hs, normStack_append [] root ("." :: _),
        normStack_clean [] root hroot, List.nil_append]
      show normStack root ("." :: _) = _
      simp only [normStack, if_pos (Or.inr rfl)]
      exact normStack_clean root _ habs

/-- Witness for C1 at a concrete traversal attempt: the virtual path
climbs with four `..` segments yet resolves under the root. -/
theorem getFullPath_contained_in_root_witness :
    ∃ t, getFullPath ["srv", "data"] (some "../../../../etc/passwd")
      = ["srv", "data"] ++ t :=
  getFullPath_contained_in_root ["srv", "data"]
    (some "../../../../etc/passwd") (by decide)

/-! ## C5: directories before files, stable within each group -/

theorem merge_foldl_aux (raw : List (Option DiskListingObject))
    (d f : List DiskListingObject) :
    raw.foldl
      (fun (acc : List DiskListingObject × List DiskListingObject) o =>
        match o with
        | none => acc
        | some l =>
          if l.type = DiskObjectType.directory then (acc.1 ++ [l], acc.2)
          else if l.type = DiskObjectType.file then (acc.1, acc.2 ++ [l])
          else acc)
      (d, f)
    = (d ++ (raw.filterMap id).filter
          (fun l => l.type = DiskObjectType.directory),
       f ++ (raw.filterMap id).filter
          (fun l => l.type = DiskObjectType.file)) := by
  induction raw generalizing d f with
  | nil => simp
  | cons o rest ih =>
    cases o with
    | none => simpa using ih d f
    | some l =>
      cases ht : l.type with
      | directory => simp [ht, ih, List.append_assoc]
      | file => simp [ht, ih, List.append_assoc]

theorem dedupJS_sublist (l : List String) :
    ∀ seen : List String, List.Sublist (dedupJS seen l) l := by
  induction l with
  | nil =>
    intro seen
    simp [dedupJS]
  | cons y ys ih =>
    intro seen
    by_cases hy : y ∈ seen
    · simp only [dedupJS, if_pos hy]
      exact (ih seen).trans (List.sublist_cons_self y ys)
    · simp only [dedupJS, if_neg hy]
      exact (ih (y :: seen)).cons₂ y

theorem mem_dedupJS (l : List String) :
    ∀ (seen : List String) (x : String),
      x ∈ dedupJS seen l ↔ (x ∈ l ∧ x ∉ seen) := by
  induction l with
  | nil =>
    intro seen x
    simp [dedupJS]
  | cons y ys ih =>
    intro seen x
    by_cases hy : y ∈ seen
    · simp only [dedupJS, if_pos hy]
      rw [ih seen x]
      constructor
      · rintro ⟨hx, hs⟩
        exact ⟨List.mem_cons_of_mem _ hx, hs⟩
      · rintro ⟨hx, hs⟩
        rcases List.mem_cons.mp hx with rfl | hx2
        · exact absurd hy hs
        · exact ⟨hx2, hs⟩
    · simp only [dedupJS, if_neg hy]
      constructor
      · intro hx
        rcases List.mem_cons.mp hx with rfl | hx2
        · exact ⟨List.mem_cons_self _ _, hy⟩
        · obtain ⟨hin, hnot⟩ := (ih (y :: seen) x).mp hx2
          exact ⟨List.mem_cons_of_mem _ hin,
            fun hseen => hnot (List.mem_cons_of_mem _ hseen)⟩
      · rintro ⟨hx, hs⟩
        rcases List.mem_cons.mp hx with rfl | hx2
        · exact List.mem_cons_self _ _
        · by_cases hxy : x = y
          · rw [hxy]
            exact List.mem_cons_self _ _
          · refine List.mem_cons_of_mem _ ((ih (y :: seen) x).mpr ⟨hx2, ?_⟩)
            intro hys
            rcases List.mem_cons.mp hys with h1 | h2
            · exact hxy h1
            · exact hs h2

theorem nodup_dedupJS (l : List String) :
    ∀ seen : List String, (dedupJS seen l).Nodup := by
  induction l with
  | nil =>
    intro seen
    simp [dedupJS]
  | cons y ys ih =>
    intro seen
    by_cases hy : y ∈ seen
    · simp only [dedupJS, if_pos hy]
      exact ih seen
    · simp only [dedupJS, if_neg hy]
      refine List.nodup_cons.mpr ⟨?_, ih (y :: seen)⟩
      intro hmem
      exact ((mem_dedupJS ys (y :: seen) y).mp hmem).2
        (List.mem_cons_self _ _)

/-- C5: for every mixed set of entries at one directory level, the merge
step of FSDisk.list places every Directory-typed entry before every
File-typed entry and preserves, within each of the two groups, the
original enumeration order (the result is exactly the stable filter of
directories followed by the stable filter of files); and S3Disk.list
returns a block of Directory objects followed by a block of File
objects, where each block is a sublist of (so in particular preserves
the order of) the corresponding group of the assembled backend
enumeration and contains every name of that group. -/
theorem list_output_directories_first :
    (∀ raw : List (Option DiskListingObject),
      mergeListings raw =
        (raw.filterMap id).filter
            (fun l => l.type = DiskObjectType.directory)
          ++ (raw.filterMap id).filter
            (fun l => l.type = DiskObjectType.file))
    ∧ (∀ pre pages, ∃ ds fs : List String,
        s3list pre pages =
            ds.map (fun n => { name := n, type := DiskObjectType.directory })
              ++ fs.map (fun n => { name := n, type := DiskObjectType.file })
          ∧ List.Sublist ds (rawListAllObjects pre pages).2
          ∧ List.Sublist fs (rawListAllObjects pre pages).1
          ∧ (∀ x ∈ (rawListAllObjects pre pages).2, x ∈ ds)
          ∧ (∀ x ∈ (rawListAllObjects pre pages).1, x ∈ fs)) := by
  constructor
  · intro raw
    simp only [mergeListings]
    rw [merge_foldl_aux raw [] []]
    simp
  · intro pre pages
    refine ⟨dedupJS [] (rawListAllObjects pre pages).2,
      dedupJS [] (rawListAllObjects pre pages).1, rfl,
      dedupJS_sublist _ [], dedupJS_sublist _ [], ?_, ?_⟩
    · intro x hx
      exact (mem_dedupJS _ [] x).mpr ⟨hx, by simp⟩
    · intro x hx
      exact (mem_dedupJS _ [] x).mpr ⟨hx, by simp⟩

/-- Witness for C5 at concrete inputs: a concrete interleaved raw
listing merges into its directories followed by its files, both in
original order, and a concrete one-page bucket listing decomposes into
the two ordered blocks. -/
theorem list_output_directories_first_witness :
    mergeListings
        [some { name := "f1", type := DiskObjectType.file },
         some { name := "d1/", type := DiskObjectType.directory },
         none,
         some { name := "f2", type := DiskObjectType.file },
         some { name := "d2/", type := DiskObjectType.directory }]
      = [{ name := "d1/", type := DiskObjectType.directory },
         { name := "d2/", type := DiskObjectType.directory },
         { name := "f1", type := DiskObjectType.file },
         { name := "f2", type := DiskObjectType.file }]
    ∧ ∃ ds fs : List String,
        s3list "p/"
            [{ contents := ["p/b.txt", "p/a.txt"],
               commonPrefixes := ["p/z/", "p/y/"] }]
          = ds.map (fun n => { name := n, type := DiskObjectType.directory })
            ++ fs.map (fun n => { name := n, type := DiskObjectType.file })
        ∧ List.Sublist ds ((rawListAllObjects "p/"
            [{ contents := ["p/b.txt", "p/a.txt"],
               commonPrefixes := ["p/z/", "p/y/"] }]).2)
        ∧ List.Sublist fs ((rawListAllObjects "p/"
            [{ contents := ["p/b.txt", "p/a.txt"],
               commonPrefixes := ["p/z/", "p/y/"] }]).1)
        ∧ (∀ x ∈ (rawListAllObjects "p/"
            [{ contents := ["p/b.txt", "p/a.txt"],
               commonPrefixes := ["p/z/", "p/y/"] }]).2, x ∈ ds)
        ∧ (∀ x ∈ (rawListAllObjects "p/"
            [{ contents := ["p/b.txt", "p/a.txt"],
               commonPrefixes := ["p/z/", "p/y/"] }]).1, x ∈ fs) :=
  ⟨(list_output_directories_first.1 _).trans (by rfl),
    list_output_directories_first.2 "p/"
      [{ contents := ["p/b.txt", "p/a.txt"],
         commonPrefixes := ["p/z/", "p/y/"] }]⟩

/-! ## C6: file and directory entry typing (code bug in LocalDisk.list) -/

/-- C6 evaluated at the failing input: the `entity.isFile()` branch of
LocalDisk.list returns the regular file entry notes.txt with type
Directory (and no trailing separator), contradicting the claim, while
the classification used by the current FSDisk.list yields type File for
a regular file and exactly one trailing separator for a directory. -/
theorem localClassify_regular_file_evaluation :
    localClassify (Except.ok StatKind.file) DirentKind.file "notes.txt"
      = Except.ok
          (some { name := "notes.txt", type := DiskObjectType.directory })
    ∧ fsClassify "notes.txt" StatKind.file
      = some { name := "notes.txt", type := DiskObjectType.file }
    ∧ fsClassify "docs" StatKind.directory
      = some { name := "docs/", type := DiskObjectType.directory } :=
  ⟨rfl, rfl, rfl⟩

/-! ## C3: broken symbolic link handling (code bug in FSDisk.list) -/

/-- C3 evaluated at the failing input: on a store holding the regular
file a.txt and the dangling symbolic link lnk, the current FSDisk.list
rejects with the raw untranslated ENOENT error (the entry is not omitted
and the listing does not resolve), because the try/catch guards only the
synchronous creation of each stat promise while the rejected promise is
awaited unguarded inside Promise.all; the per-entry classifier of
LocalDisk.list, in contrast, drops a symbolic link whose target stat
reports ENOENT, as the claim describes. -/
theorem fsList_broken_symlink_evaluation :
    fsList fsBroken [] none = Except.error (DiskError.raw FsErr.ENOENT)
    ∧ localClassify (Except.error FsErr.ENOENT) DirentKind.symlink "lnk"
      = Except.ok none :=
  ⟨rfl, rfl⟩

/-! ## C4: unrecognized backend errors (code bug in S3Disk.read) -/

/-- C4 evaluated at the failing input: when the backend getObject call
rejects with the unrecognized code AccessDenied, S3Disk.read resolves
successfully with an empty buffer - the catch block has no rethrow, so
the error is swallowed rather than propagated; FSDisk.read, in contrast,
rethrows an unrecognized code such as EACCES unchanged. -/
theorem s3Read_swallows_unrecognized_error :
    s3Read "file.txt" "root/file.txt" (Except.error "AccessDenied")
      = Except.ok []
    ∧ fsReadTranslate "file.txt" (Except.error FsErr.EACCES)
      = Except.error (DiskError.raw FsErr.EACCES) :=
  ⟨rfl, rfl⟩

/-! ## C7: bounded alias resolution -/

/-- C7: alias resolution is fuel-bounded: getDisk resolves with the
default budget of 10 and throws DiskNotFoundError whenever resolution
returns null; a name absent from the configuration resolves to null for
every budget; an exhausted budget resolves to null; and each alias hop
recurses with the budget decremented by one. -/
theorem resolveDiskSpecification_bounded :
    (∀ (cfg : DiskManagerConfig) (st : ManagerState) (name : String),
      resolveDiskSpecification cfg name 10 = none →
        getDisk cfg st name = Except.error (DiskError.diskNotFound name))
    ∧ (∀ (cfg : DiskManagerConfig) (name : String) (fuel : Nat),
        lookupA cfg name = none →
          resolveDiskSpecification cfg name fuel = none)
    ∧ (∀ (cfg : DiskManagerConfig) (name : String),
        resolveDiskSpecification cfg name 0 = none)
    ∧ (∀ (cfg : DiskManagerConfig) (name t : String) (fuel : Nat),
        lookupA cfg name = some (ConfigEntry.alias t) →
          resolveDiskSpecification cfg name (fuel + 1)
            = resolveDiskSpecification cfg t fuel) := by
  refine ⟨?_, ?_, ?_, ?_⟩
  · intro cfg st name h
    simp [getDisk, h]
  · intro cfg name fuel h
    cases fuel with
    | zero => rfl
    | succ m => simp [resolveDiskSpecification, h]
  · intro cfg name
    rfl
  · intro cfg name t fuel h
    simp [resolveDiskSpecification, h]

/-- Witness for C7 at concrete inputs: the two-element alias cycle is
cut off by the budget and getDisk reports DiskNotFoundError; a name
absent from the configuration resolves to null; budget zero resolves to
null; one alias hop decrements the budget. -/
theorem resolveDiskSpecification_bounded_witness :
    getDisk cycleCfg { disks := [], nextId := 0 } "a"
      = Except.error (DiskError.diskNotFound "a")
    ∧ resolveDiskSpecification cycleCfg "zzz" 7 = none
    ∧ resolveDiskSpecification scenarioCfg "default" 0 = none
    ∧ resolveDiskSpecification scenarioCfg "default" 10
      = resolveDiskSpecification scenarioCfg "foo" 9 :=
  ⟨resolveDiskSpecification_bounded.1 cycleCfg { disks := [], nextId := 0 }
      "a" (by decide),
    resolveDiskSpecification_bounded.2.1 cycleCfg "zzz" 7 (by decide),
    resolveDiskSpecification_bounded.2.2.1 scenarioCfg "default",
    resolveDiskSpecification_bounded.2.2.2 scenarioCfg "default" "foo" 9
      (by decide)⟩

/-! ## C2: identity-stable getDisk and canonical names -/

/-- After a successful getDisk, the registry holds the returned instance
under the resolved name. -/
theorem getDisk_registers {cfg : DiskManagerConfig} {st st1 : ManagerState}
    {n : String} {d : DiskInstance} {r : String} {sp : DiskSpec}
    (hres : resolveDiskSpecification cfg n 10 = some (r, sp))
    (h : getDisk cfg st n = Except.ok (d, st1)) :
    lookupA st1.disks r = some d := by
  unfold getDisk at h
  rw [hres] at h
  dsimp only at h
  cases hl : lookupA st.disks r with
  | some d0 =>
    rw [hl] at h
    dsimp only at h
    simp only [Except.ok.injEq, Prod.mk.injEq] at h
    rw [← h.1, ← h.2]
    exact hl
  | none =>
    rw [hl] at h
    dsimp only at h
    by_cases hL : sp.driver = some "local"
    · rw [if_pos hL] at h
      simp only [Except.ok.injEq, Prod.mk.injEq] at h
      rw [← h.1, ← h.2]
      exact lookupA_setA_self _ _ _
    · rw [if_neg hL] at h
      by_cases hM : sp.driver = some "memory"
      · rw [if_pos hM] at h
        simp only [Except.ok.injEq, Prod.mk.injEq] at h
        rw [← h.1, ← h.2]
        exact lookupA_setA_self _ _ _
      · rw [if_neg hM] at h
        by_cases hS : sp.driver = some "s3"
        · rw [if_pos hS] at h
          simp only [Except.ok.injEq, Prod.mk.injEq] at h
          rw [← h.1, ← h.2]
          exact lookupA_setA_self _ _ _
        · rw [if_neg hS] at h
          exact absurd h (by simp)

/-- After a successful getDisk, the returned instance carries the
resolved name, provided every previously registered instance carries its
registration name. -/
theorem getDisk_name {cfg : DiskManagerConfig} {st st1 : ManagerState}
    {n : String} {d : DiskInstance} {r : String} {sp : DiskSpec}
    (hw : wellNamed st)
    (hres : resolveDiskSpecification cfg n 10 = some (r, sp))
    (h : getDisk cfg st n = Except.ok (d, st1)) :
    d.name = some r := by
  unfold getDisk at h
  rw [hres] at h
  dsimp only at h
  cases hl : lookupA st.disks r with
  | some d0 =>
    rw [hl] at h
    dsimp only at h
    simp only [Except.ok.injEq, Prod.mk.injEq] at h
    rw [← h.1]
    exact hw (r, d0) (lookupA_mem hl)
  | none =>
    rw [hl] at h
    dsimp only at h
    by_cases hL : sp.driver = some "local"
    · rw [if_pos hL] at h
      simp only [Except.ok.injEq, Prod.mk.injEq] at h
      rw [← h.1]
    · rw [if_neg hL] at h
      by_cases hM : sp.driver = some "memory"
      · rw [if_pos hM] at h
        simp only [Except.ok.injEq, Prod.mk.injEq] at h
        rw [← h.1]
      · rw [if_neg hM] at h
        by_cases hS : sp.driver = some "s3"
        · rw [if_pos hS] at h
          simp only [Except.ok.injEq, Prod.mk.injEq] at h
          rw [← h.1]
        · rw [if_neg hS] at h
          exact absurd h (by simp)

/-- C2: for every configuration and every well-named manager state, two
successive getDisk calls whose name arguments resolve (possibly through
aliases) to the same resolved name return the identical instance, and
that instance carries the final resolved name - never the alias used in
the call. -/
theorem getDisk_identity_and_canonical_name (cfg : DiskManagerConfig)
    (st0 st1 st2 : ManagerState) (n1 n2 r : String) (sp1 sp2 : DiskSpec)
    (d1 d2 : DiskInstance) (hw : wellNamed st0)
    (hres1 : resolveDiskSpecification cfg n1 10 = some (r, sp1))
    (hres2 : resolveDiskSpecification cfg n2 10 = some (r, sp2))
    (h1 : getDisk cfg st0 n1 = Except.ok (d1, st1))
    (h2 : getDisk cfg st1 n2 = Except.ok (d2, st2)) :
    d2 = d1 ∧ d1.name = some r := by
  have hreg : lookupA st1.disks r = some d1 := getDisk_registers hres1 h1
  have hname : d1.name = some r := getDisk_name hw hres1 h1
  refine ⟨?_, hname⟩
  unfold getDisk at h2
  rw [hres2] at h2
  dsimp only at h2
  rw [hreg] at h2
  simp only [Except.ok.injEq, Prod.mk.injEq] at h2
  exact h2.1.symm

/-- Witness for C2 on the spec scenario configuration: getDisk("foo")
then getDisk("bar") return the identical instance, whose name is the
resolved name "foo" rather than the alias "bar". -/
theorem getDisk_identity_and_canonical_name_witness :
    { id := 0, name := some "foo", driver := "memory",
        config := "c" : DiskInstance }
      = { id := 0, name := some "foo", driver := "memory",
          config := "c" : DiskInstance }
    ∧ ({ id := 0, name := some "foo", driver := "memory",
          config := "c" : DiskInstance }).name = some "foo" :=
  getDisk_identity_and_canonical_name scenarioCfg
    { disks := [], nextId := 0 }
    { disks := [("foo",
        { id := 0, name := some "foo", driver := "memory", config := "c" })],
      nextId := 1 }
    { disks := [("foo",
        { id := 0, name := some "foo", driver := "memory", config := "c" })],
      nextId := 1 }
    "foo" "bar" "foo"
    { driver := some "memory", config := "c" }
    { driver := some "memory", config := "c" }
    { id := 0, name := some "foo", driver := "memory", config := "c" }
    { id := 0, name := some "foo", driver := "memory", config := "c" }
    (by intro e he; simp at he)
    (by decide) (by decide) rfl rfl

/-! ## Filesystem primitive lemmas for the write/read round trip -/

theorem mkdirpGo_preserves_dir (segs : List String) :
    ∀ (fs fs' : FsState) (done q : List String),
      mkdirpGo fs done segs = Except.ok fs' →
        lookupA fs q = some Node.dir → lookupA fs' q = some Node.dir := by
  induction segs with
  | nil =>
    intro fs fs' done q h hq
    simp only [mkdirpGo, Except.ok.injEq] at h
    rw [← h]
    exact hq
  | cons s rest ih =>
    intro fs fs' done q h hq
    simp only [mkdirpGo] at h
    cases hl : lookupA fs (done ++ [s]) with
    | none =>
      rw [hl] at h
      dsimp only at h
      refine ih _ fs' (done ++ [s]) q h ?_
      by_cases hqk : q = done ++ [s]
      · rw [hqk]
        exact lookupA_setA_self _ _ _
      · rw [lookupA_setA_ne _ _ _ _ hqk]
        exact hq
    | some node =>
      rw [hl] at h
      cases node with
      | dir => exact ih _ fs' (done ++ [s]) q h hq
      | file d => simp at h
      | symlink t => simp at h

theorem mkdirpGo_chain (segs : List String) :
    ∀ (fs fs' : FsState) (done : List String),
      mkdirpGo fs done segs = Except.ok fs' →
        ∀ i < segs.length,
          lookupA fs' (done ++ segs.take (i + 1)) = some Node.dir := by
  induction segs with
  | nil =>
    intro fs fs' done _ i hi
    simp at hi
  | cons s rest ih =>
    intro fs fs' done h i hi
    simp only [mkdirpGo] at h
    cases hl : lookupA fs (done ++ [s]) with
    | none =>
      rw [hl] at h
      dsimp only at h
      cases i with
      | zero =>
        have hself :
            lookupA (setA fs (done ++ [s]) Node.dir) (done ++ [s])
              = some Node.dir := lookupA_setA_self _ _ _
        have := mkdirpGo_preserves_dir rest _ fs' (done ++ [s]) (done ++ [s])
          h hself
        simpa using this
      | succ i2 =>
        have hi2 : i2 < rest.length := by simpa using hi
        have := ih _ fs' (done ++ [s]) h i2 hi2
        simpa [List.append_assoc] using this
    | some node =>
      rw [hl] at h
      cases node with
      | dir =>
        cases i with
        | zero =>
          have := mkdirpGo_preserves_dir rest fs fs' (done ++ [s])
            (done ++ [s]) h hl
          simpa using this
        | succ i2 =>
          have hi2 : i2 < rest.length := by simpa using hi
          have := ih _ fs' (done ++ [s]) h i2 hi2
          simpa [List.append_assoc] using this
      | file d => simp at h
      | symlink t => simp at h

theorem mkdirpGo_noop (segs : List String) :
    ∀ (fs : FsState) (done : List String),
      (∀ i < segs.length,
        lookupA fs (done ++ segs.take (i + 1)) = some Node.dir) →
      mkdirpGo fs done segs = Except.ok fs := by
  induction segs with
  | nil =>
    intro fs done _
    rfl
  | cons s rest ih =>
    intro fs done h
    have h0 : lookupA fs (done ++ [s]) = some Node.dir := by
      simpa using h 0 (by simp)
    simp only [mkdirpGo]
    rw [h0]
    exact ih fs (done ++ [s])
      (fun i hi => by
        have := h (i + 1) (by simpa using hi)
        simpa [List.append_assoc] using this)

theorem fsWrite_ok_decomp {fs fs1 : FsState} {root : List String}
    {p : String} {B : List Nat} (h : fsWrite fs root p B = Except.ok fs1) :
    ∃ fsA, mkdirpE fs (getFullPath root (some p)).dropLast = Except.ok fsA
      ∧ writeFileE fsA (getFullPath root (some p)) B = Except.ok fs1 := by
  unfold fsWrite at h
  dsimp only at h
  cases hm : mkdirpE fs (getFullPath root (some p)).dropLast with
  | ok fsA =>
    rw [hm] at h
    dsimp only at h
    cases hw : writeFileE fsA (getFullPath root (some p)) B with
    | ok fs2 =>
      rw [hw] at h
      dsimp only at h
      simp only [Except.ok.injEq] at h
      subst h
      exact ⟨fsA, hm ▸ rfl, hw⟩
    | error e =>
      rw [hw] at h
      cases e <;> simp at h
  | error e =>
    rw [hm] at h
    cases e <;> simp at h

theorem writeFileE_ok {fs fs' : FsState} {p : List String} {B : List Nat}
    (h : writeFileE fs p B = Except.ok fs') :
    p ≠ [] ∧ (p.dropLast = [] ∨ lookupA fs p.dropLast = some Node.dir)
      ∧ fs' = setA fs p (Node.file B) := by
  unfold writeFileE at h
  by_cases hp : p = []
  · rw [if_pos hp] at h
    simp at h
  · rw [if_neg hp] at h
    refine ⟨hp, ?_⟩
    by_cases hc : p.dropLast = [] ∨ lookupA fs p.dropLast = some Node.dir
    · refine ⟨hc, ?_⟩
      cases hs : statNode fs p with
      | none =>
        rw [hs] at h
        dsimp only at h
        rw [if_pos hc] at h
        simp only [Except.ok.injEq] at h
        exact h.symm
      | some node =>
        rw [hs] at h
        cases node with
        | dir => simp at h
        | file d =>
          dsimp only at h
          rw [if_pos hc] at h
          simp only [Except.ok.injEq] at h
          exact h.symm
        | symlink t =>
          dsimp only at h
          rw [if_pos hc] at h
          simp only [Except.ok.injEq] at h
          exact h.symm
    · exfalso
      cases hs : statNode fs p with
      | none =>
        rw [hs] at h
        dsimp only at h
        rw [if_neg hc] at h
        simp at h
      | some node =>
        rw [hs] at h
        cases node with
        | dir => simp at h
        | file d =>
          dsimp only at h
          rw [if_neg hc] at h
          simp at h
        | symlink t =>
          dsimp only at h
          rw [if_neg hc] at h
          simp at h

/-! ## C8: write / read round trip with truncating overwrite -/

/-- C8: on a filesystem-like disk, a successful write of bytes B to path
P followed by a read of P returns exactly B; and overwriting P with B2
(which always succeeds after the first write) followed by a read returns
exactly B2 - since the overwrite replaces the stored content wholly,
no residual trailing bytes of a longer previous content remain, even
when B2 is shorter than B. -/
theorem write_then_read_roundtrip (fs : FsState) (root : List String)
    (p : String) (B B2 : List Nat) (fs1 : FsState)
    (h1 : fsWrite fs root p B = Except.ok fs1) :
    fsRead fs1 root p = Except.ok B
    ∧ ∃ fs2, fsWrite fs1 root p B2 = Except.ok fs2
        ∧ fsRead fs2 root p = Except.ok B2 := by
  obtain ⟨fsA, hm, hw⟩ := fsWrite_ok_decomp h1
  obtain ⟨hne, hcond, heq⟩ := writeFileE_ok hw
  have hlk1 : lookupA fs1 (getFullPath root (some p))
      = some (Node.file B) := by
    rw [heq]
    exact lookupA_setA_self _ _ _
  have hsn1 : statNode fs1 (getFullPath root (some p))
      = some (Node.file B) := by
    unfold statNode
    rw [if_neg hne, hlk1]
  have hread1 : fsRead fs1 root p = Except.ok B := by
    unfold fsRead readFileE
    rw [hsn1]
    rfl
  refine ⟨hread1, ?_⟩
  -- every intermediate directory of the parent chain created or found by
  -- the first mkdirp is still a directory after the write
  have hchainA : ∀ i < (getFullPath root (some p)).dropLast.length,
      lookupA fsA ((getFullPath root (some p)).dropLast.take (i + 1))
        = some Node.dir := by
    intro i hi
    have := mkdirpGo_chain (getFullPath root (some p)).dropLast fs fsA []
      hm i hi
    simpa using this
  have htake_ne : ∀ i < (getFullPath root (some p)).dropLast.length,
      (getFullPath root (some p)).dropLast.take (i + 1)
        ≠ getFullPath root (some p) := by
    intro i hi hEq
    have hlen := congrArg List.length hEq
    rw [List.length_take, List.length_dropLast] at hlen
    rw [List.length_dropLast] at hi
    omega
  have hchain1 : ∀ i < (getFullPath root (some p)).dropLast.length,
      lookupA fs1 ((getFullPath root (some p)).dropLast.take (i + 1))
        = some Node.dir := by
    intro i hi
    rw [heq, lookupA_setA_ne _ _ _ _ (htake_ne i hi)]
    exact hchainA i hi
  have hmk2 : mkdirpE fs1 (getFullPath root (some p)).dropLast
      = Except.ok fs1 := by
    unfold mkdirpE
    exact mkdirpGo_noop _ fs1 [] (fun i hi => by simpa using hchain1 i hi)
  have hcond1 : (getFullPath root (some p)).dropLast = []
      ∨ lookupA fs1 (getFullPath root (some p)).dropLast
          = some Node.dir := by
    cases hcond with
    | inl hl => exact Or.inl hl
    | inr hr =>
      refine Or.inr ?_
      have hne2 : (getFullPath root (some p)).dropLast
          ≠ getFullPath root (some p) := by
        intro hEq
        have hlen := congrArg List.length hEq
        rw [List.length_dropLast] at hlen
        have : getFullPath root (some p) ≠ [] := hne
        cases hfp : getFullPath root (some p) with
        | nil => exact this hfp
        | cons a as =>
          rw [hfp] at hlen
          simp at hlen
      rw [heq, lookupA_setA_ne _ _ _ _ hne2]
      exact hr
  have hwf2 : writeFileE fs1 (getFullPath root (some p)) B2
      = Except.ok (setA fs1 (getFullPath root (some p))
          (Node.file B2)) := by
    unfold writeFileE
    rw [if_neg hne, hsn1]
    dsimp only
    rw [if_pos hcond1]
  refine ⟨setA fs1 (getFullPath root (some p)) (Node.file B2), ?_, ?_⟩
  · unfold fsWrite
    dsimp only
    rw [hmk2]
    dsimp only
    rw [hwf2]
  · have hlk2 : lookupA (setA fs1 (getFullPath root (some p))
        (Node.file B2)) (getFullPath root (some p))
        = some (Node.file B2) := lookupA_setA_self _ _ _
    have hsn2 : statNode (setA fs1 (getFullPath root (some p))
        (Node.file B2)) (getFullPath root (some p))
        = some (Node.file B2) := by
      unfold statNode
      rw [if_neg hne, hlk2]
    unfold fsRead readFileE
    rw [hsn2]
    rfl

/-- Witness for C8 at concrete inputs: writing two bytes to a/b.txt on
an empty store (auto-creating the directory a), reading them back, then
overwriting with a single byte and reading that back. -/
theorem write_then_read_roundtrip_witness :
    fsRead [(["a"], Node.dir), (["a", "b.txt"], Node.file [104, 105])]
        [] "a/b.txt" = Except.ok [104, 105]
    ∧ ∃ fs2, fsWrite
        [(["a"], Node.dir), (["a", "b.txt"], Node.file [104, 105])]
        [] "a/b.txt" [107] = Except.ok fs2
      ∧ fsRead fs2 [] "a/b.txt" = Except.ok [107] :=
  write_then_read_roundtrip [] [] "a/b.txt" [104, 105] [107]
    [(["a"], Node.dir), (["a", "b.txt"], Node.file [104, 105])] rfl

/-! ## C9: object store pagination completeness -/

theorem dropPre_self_append {α : Type} [DecidableEq α] (a b : List α) :
    dropPre a (a ++ b) = some b := by
  induction a with
  | nil => rfl
  | cons x xs ih => simp [dropPre, ih]

theorem prefixTrim_append (pre n : String) :
    prefixTrim pre (pre ++ n) = n := by
  obtain ⟨d⟩ := n
  show prefixTrim pre (pre ++ ⟨d⟩) = ⟨d⟩
  unfold prefixTrim
  have hd : (pre ++ String.mk d).data = pre.data ++ d := rfl
  rw [hd, dropPre_self_append]

theorem rawListAllObjects_join (pre : String) (pages : List S3Page) :
    rawListAllObjects pre pages =
      ((((pages.map S3Page.contents).flatten).map (prefixTrim pre)).filter
          (fun n => n ≠ ""),
       (((pages.map S3Page.commonPrefixes).flatten).map (prefixTrim pre)).filter
          (fun n => n ≠ "")) := by
  induction pages with
  | nil => rfl
  | cons pg rest ih =>
    simp only [rawListAllObjects, listSome, ih, List.map_cons,
      List.flatten_cons, List.map_append, List.filter_append]

theorem dedupJS_of_nodup (l : List String) :
    ∀ seen : List String, l.Nodup → (∀ x ∈ l, x ∉ seen) →
      dedupJS seen l = l := by
  induction l with
  | nil =>
    intro seen _ _
    rfl
  | cons x xs ih =>
    intro seen hn hs
    have hx : x ∉ seen := hs x (List.mem_cons_self _ _)
    simp only [dedupJS, if_neg hx]
    rw [ih (x :: seen) (List.Nodup.of_cons hn)]
    intro y hy
    simp only [List.mem_cons]
    push_neg
    refine ⟨?_, hs y (List.mem_cons_of_mem _ hy)⟩
    intro hyx
    rw [hyx] at hy
    exact (List.nodup_cons.mp hn).1 hy

theorem map_prefixTrim_of_append (pre : String) (names : List String) :
    (names.map (fun n => pre ++ n)).map (prefixTrim pre) = names := by
  rw [List.map_map]
  have h : ∀ n ∈ names, (prefixTrim pre ∘ fun n => pre ++ n) n = id n :=
    fun n _ => prefixTrim_append pre n
  rw [List.map_congr_left h, List.map_id]

/-- C9: the listing assembled by S3Disk.list from the pages delivered by
the paginated backend call depends only on the concatenation of the
pages - so for N objects under the query prefix any page size (any split
into pages chained by continuation tokens) produces the same listing;
for a regex-safe query prefix (where the anchored trim pattern of the
source denotes the literal prefix, see `regexSafe`) a prefix delivering
object keys and possibly repeated common prefixes yields the listing
whose two groups have the query prefix trimmed from every name and are
each deduplicated (duplicate-free, containing exactly the delivered
names); in particular a prefix holding exactly N distinct objects yields
exactly those N trimmed entries; and the operation has no NotFound or
NotADirectory failure path - a backend answer with no contents and no
common prefixes (an empty or nonexistent prefix) yields an empty array. -/
theorem s3list_pagination_complete :
    (∀ (pre : String) (pages1 pages2 : List S3Page),
      (pages1.map S3Page.contents).flatten
          = (pages2.map S3Page.contents).flatten →
      (pages1.map S3Page.commonPrefixes).flatten
          = (pages2.map S3Page.commonPrefixes).flatten →
      s3list pre pages1 = s3list pre pages2)
    ∧ (∀ (pre : String) (fnames cnames : List String)
          (pages : List S3Page),
        regexSafe pre = true →
        (pages.map S3Page.contents).flatten
            = fnames.map (fun n => pre ++ n) →
        (pages.map S3Page.commonPrefixes).flatten
            = cnames.map (fun n => pre ++ n) →
        (∀ n ∈ fnames, n ≠ "") → (∀ n ∈ cnames, n ≠ "") →
        s3list pre pages
            = (dedupJS [] cnames).map
                (fun n => { name := n, type := DiskObjectType.directory })
              ++ (dedupJS [] fnames).map
                (fun n => { name := n, type := DiskObjectType.file })
          ∧ (dedupJS [] cnames).Nodup ∧ (dedupJS [] fnames).Nodup
          ∧ (∀ x, x ∈ dedupJS [] cnames ↔ x ∈ cnames)
          ∧ (∀ x, x ∈ dedupJS [] fnames ↔ x ∈ fnames))
    ∧ (∀ (pre : String) (names : List String) (pages : List S3Page),
        regexSafe pre = true →
        (pages.map S3Page.contents).flatten
            = names.map (fun n => pre ++ n) →
        (pages.map S3Page.commonPrefixes).flatten = [] →
        names.Nodup → (∀ n ∈ names, n ≠ "") →
        s3list pre pages
          = names.map (fun n => { name := n, type := DiskObjectType.file }))
    ∧ (∀ (pre : String) (pages : List S3Page),
        (pages.map S3Page.contents).flatten = [] →
        (pages.map S3Page.commonPrefixes).flatten = [] →
        s3list pre pages = []) := by
  refine ⟨?_, ?_, ?_, ?_⟩
  · intro pre pages1 pages2 hc hp
    unfold s3list
    rw [rawListAllObjects_join, rawListAllObjects_join, hc, hp]
  · intro pre fnames cnames pages _ hc hp hf hcn
    unfold s3list
    rw [rawListAllObjects_join, hc, hp]
    dsimp only
    rw [map_prefixTrim_of_append, map_prefixTrim_of_append]
    have hfilf : fnames.filter (fun n => n ≠ "") = fnames :=
      List.filter_eq_self.mpr (fun n hn => by simpa using hf n hn)
    have hfilc : cnames.filter (fun n => n ≠ "") = cnames :=
      List.filter_eq_self.mpr (fun n hn => by simpa using hcn n hn)
    rw [hfilf, hfilc]
    refine ⟨rfl, nodup_dedupJS cnames [], nodup_dedupJS fnames [],
      ?_, ?_⟩
    · intro x
      rw [mem_dedupJS cnames [] x]
      simp
    · intro x
      rw [mem_dedupJS fnames [] x]
      simp
  · intro pre names pages hsafe hc hp hnd hne
    unfold s3list
    rw [rawListAllObjects_join, hc, hp]
    dsimp only
    rw [map_prefixTrim_of_append]
    have hfil : names.filter (fun n => n ≠ "") = names :=
      List.filter_eq_self.mpr (fun n hn => by simpa using hne n hn)
    rw [hfil, dedupJS_of_nodup names [] hnd (by simp)]
    simp [dedupJS]
  · intro pre pages hc hp
    unfold s3list
    rw [rawListAllObjects_join, hc, hp]
    rfl

/-- Witness for C9 at concrete inputs: three objects under the
regex-safe prefix docs/ split into pages of size two and one produce
exactly the three trimmed entries, the same listing as a split into
three pages of size one; and a common prefix delivered twice across two
pages is deduplicated. -/
theorem s3list_pagination_complete_witness :
    s3list "docs/"
        [{ contents := ["docs/a.txt", "docs/b.txt"], commonPrefixes := [] },
         { contents := ["docs/c.txt"], commonPrefixes := [] }]
      = [{ name := "a.txt", type := DiskObjectType.file },
         { name := "b.txt", type := DiskObjectType.file },
         { name := "c.txt", type := DiskObjectType.file }]
    ∧ s3list "docs/"
        [{ contents := ["docs/a.txt", "docs/b.txt"], commonPrefixes := [] },
         { contents := ["docs/c.txt"], commonPrefixes := [] }]
      = s3list "docs/"
        [{ contents := ["docs/a.txt"], commonPrefixes := [] },
         { contents := ["docs/b.txt"], commonPrefixes := [] },
         { contents := ["docs/c.txt"], commonPrefixes := [] }]
    ∧ s3list "docs/"
        [{ contents := ["docs/a.txt"], commonPrefixes := ["docs/img/"] },
         { contents := [], commonPrefixes := ["docs/img/"] }]
      = (dedupJS [] ["img/", "img/"]).map
          (fun n => { name := n, type := DiskObjectType.directory })
        ++ (dedupJS [] ["a.txt"]).map
          (fun n => { name := n, type := DiskObjectType.file }) :=
  ⟨s3list_pagination_complete.2.2.1 "docs/" ["a.txt", "b.txt", "c.txt"]
      [{ contents := ["docs/a.txt", "docs/b.txt"], commonPrefixes := [] },
       { contents := ["docs/c.txt"], commonPrefixes := [] }]
      (by decide) rfl rfl (by decide) (by decide),
    s3list_pagination_complete.1 "docs/"
      [{ contents := ["docs/a.txt", "docs/b.txt"], commonPrefixes := [] },
       { contents := ["docs/c.txt"], commonPrefixes := [] }]
      [{ contents := ["docs/a.txt"], commonPrefixes := [] },
       { contents := ["docs/b.txt"], commonPrefixes := [] },
       { contents := ["docs/c.txt"], commonPrefixes := [] }]
      rfl rfl,
    (s3list_pagination_complete.2.1 "docs/" ["a.txt"] ["img/", "img/"]
      [{ contents := ["docs/a.txt"], commonPrefixes := ["docs/img/"] },
       { contents := [], commonPrefixes := ["docs/img/"] }]
      (by decide) rfl rfl (by decide) (by decide)).1⟩

/-! ## C10: memory disk isolation -/

/-- C10: every MemoryDisk owns an isolated store created fresh at
construction: running any state-transforming operation sequence against
the volume of one instance leaves the volume (hence the contents and
listings) of every other instance unchanged, and a newly constructed
instance starts with the empty volume. -/
theorem memory_disk_isolation :
    (∀ (w : List FsState) (i j : Nat) (op : FsState → FsState), i ≠ j →
      (memApply w i op)[j]? = w[j]?)
    ∧ (∀ w : List FsState,
        (newMemoryDisk w).1[(newMemoryDisk w).2]? = some emptyFs) := by
  constructor
  · intro w i j op h
    unfold memApply
    exact List.getElem?_set_ne h
  · intro w
    unfold newMemoryDisk
    simp

/-- Witness for C10 at concrete inputs: a write applied to the first of
two fresh memory volumes leaves the second volume unchanged. -/
theorem memory_disk_isolation_witness :
    (memApply [emptyFs, emptyFs] 0
        (fun s => setA s ["x.txt"] (Node.file [120])))[1]?
      = [emptyFs, emptyFs][1]? :=
  memory_disk_isolation.1 [emptyFs, emptyFs] 0 1
    (fun s => setA s ["x.txt"] (Node.file [120])) (by decide)

end NodeDisks
